import Mathlib

/-!
# Segmented HTTP downloader: verification of the partition planner, the prober,
# the positional writer and the throughput tracker

Shallow embedding of `src/main.go` (the multi-part engine) and of
`src/simpledial.go` (the instrumented-connection variant).

Conventions of the embedding.
* Go `int64` values are `Int`; every arithmetic result is passed through `wrap64`
  (two's complement wrap-around), Go `uint64` values are `Nat` reduced `% 2^64`.
* Go `int` is taken to be 64 bits wide (all 64-bit targets).
* Everything the program obtains from outside (flags, HTTP responses, the file
  system, the progress-bar library) is an explicit input of the definitions.
-/

namespace Downloader

/-! ## Machine integers -/

/-- Largest `int64`. -/
def maxInt64 : Int := 9223372036854775807

/-- Smallest `int64`. -/
def minInt64 : Int := -9223372036854775808

/-- Two's complement wrap-around of a mathematical integer to `int64`. -/
def wrap64 (x : Int) : Int := (x + 9223372036854775808) % 18446744073709551616 - 9223372036854775808

/-- A value of Go type `int64`. -/
def IsInt64 (x : Int) : Prop := minInt64 ≤ x ∧ x ≤ maxInt64

/-- Go `a / b` on `int64` for `b ≠ 0`: truncated division, wrapped (only
`minInt64 / -1` wraps). -/
def div64 (a b : Int) : Int := wrap64 (Int.tdiv a b)

/-- Modulus of `uint64` arithmetic. -/
def two64 : Nat := 18446744073709551616

/-- Go conversion `int(x)` of a `uint64` (reinterpretation of the 64 bits). -/
def intOfUint64 (x : Nat) : Int := wrap64 (x : Int)

/-! ## `main.go`: how a part task ends -/

/-- The ways one `writeRange` call can end.  `log.Fatalf` and `handleError`
terminate the whole process (on Windows `handleError` blocks forever in
`blockForWindows` instead); in both cases `writeRange` never returns. -/
inductive PartExit where
  /-- The `break` out of the read loop: the part is complete and the function returns. -/
  | returned : PartExit
  /-- Exit through `log.Fatalf("Part %d request error: ...")`. -/
  | requestError (part_num : Int) : PartExit
  /-- Exit through `log.Fatalf("Part %d occured error: ...")` after a failed `WriteAt`. -/
  | writeError (part_num : Int) : PartExit
  /-- Exit through `log.Fatalf("Part %d occured error of short writiing.")`. -/
  | shortWrite (part_num : Int) : PartExit
  /-- Exit through `handleError("Part %d unfinished.")`. -/
  | unfinished (part_num : Int) : PartExit
  /-- Exit through `handleError("Part %d occured error: %s")` for a read error other than EOF. -/
  | readError (part_num : Int) (msg : String) : PartExit
  /-- The recorded reads are used up and `body.Read` has not reported an error yet:
  the loop is still running. -/
  | reading : PartExit
  deriving DecidableEq, Repr

/-! ## `main.go`: `getSizeAndCheckRangeSupport` result as seen by `main` -/

/-- The two errors of `strconv.ParseInt`. -/
inductive NumErr where
  /-- Go `strconv.ErrSyntax`. -/
  | errSyntax : NumErr
  /-- Go `strconv.ErrRange`. -/
  | errRange : NumErr
  deriving DecidableEq, Repr

/-- The errors `getSizeAndCheckRangeSupport` can return. -/
inductive ProbeErr where
  /-- Error of `http.NewRequest` or of `client.Do`. -/
  | transport (msg : String) : ProbeErr
  /-- The error "Doesn't support `Accept-Ranges`." -/
  | noAcceptRanges : ProbeErr
  /-- The error "Support `Accept-Ranges`, but value is not `bytes`." -/
  | notBytes : ProbeErr
  /-- Error of `strconv.ParseInt` on the `Content-Length` value. -/
  | parseFailed (e : NumErr) : ProbeErr
  deriving DecidableEq, Repr

/-- Result of a call of `getSizeAndCheckRangeSupport`: either the pair
`(size, err)` it returns, or a run-time panic (index out of range). -/
inductive ProbeResult where
  | ret (size : Int) (err : Option ProbeErr) : ProbeResult
  | panic : ProbeResult
  deriving DecidableEq, Repr

/-! ## `main.go`: the dispatch loop of `main` (lines 68-87) -/

/-- One `go worker.writeRange(num, start, end-1)` statement: the three arguments. -/
structure Dispatch where
  num : Int
  start : Int
  stop : Int
  deriving DecidableEq, Repr

/-- The loop `for num := int64(0); num < worker.Count; num++ { ... }` of `main`,
started at the given `num` and `start`; the first argument bounds the number of
iterations.  Returns the `writeRange` calls launched, in order. -/
def dispatchLoop (file_size count partial_size : Int) : Nat → Int → Int → List Dispatch
  | 0, _, _ => []
  | fuel + 1, num, start =>
    if num < count then
      let end_ : Int := if num = count then file_size else wrap64 (start + partial_size)
      { num := num, start := start, stop := wrap64 (end_ - 1) } ::
        dispatchLoop file_size count partial_size fuel (wrap64 (num + 1)) end_
    else []

/-- Lines 68-87 of `main` for `worker_count ≠ 0`: `partial_size` and the loop, run
from `num = 0`, `start = 0`.  The loop makes at most `worker_count` iterations, so
`worker_count` iterations are allowed. -/
def planParts (file_size worker_count : Int) : List Dispatch :=
  dispatchLoop file_size worker_count (div64 file_size worker_count) worker_count.toNat 0 0

/-! ## `main.go`: `main` -/

/-- Everything `main` reads from outside. -/
structure MainEnv where
  /-- Flag `-c`. -/
  worker_count : Int
  /-- Result of `getSizeAndCheckRangeSupport(download_url)`. -/
  probe : ProbeResult
  /-- Error of `url.Parse` inside `getFileName`, if any. -/
  fileNameErr : Option String
  /-- Error of `os.OpenFile`, if any. -/
  openErr : Option String
  /-- Error of `pb.StartPool`, if any. -/
  poolErr : Option String
  /-- How the `writeRange` task of each part ends. -/
  partExit : Int → PartExit

/-- How `main` ends. -/
inductive MainExit where
  /-- A run-time panic (index out of range in the probe, integer divide by zero). -/
  | panic : MainExit
  /-- Exit through `handleError(err)` with a non-nil error in `main` itself. -/
  | handled (msg : String) : MainExit
  /-- A part task terminated the process (or never finished). -/
  | partFailed (e : PartExit) : MainExit
  /-- The statement `log.Println("Done!")` was reached. -/
  | done : MainExit
  deriving DecidableEq, Repr

/-- Observable summary of one run of `main`. -/
structure MainRun where
  /-- Whether `os.OpenFile` was called and succeeded (the file exists from then on). -/
  fileOpened : Bool
  /-- The `writeRange` tasks launched, in order. -/
  dispatched : List Dispatch
  exit : MainExit
  deriving DecidableEq, Repr

/-- The call `SyncWG.Wait()`: the first dispatched part that does not return decides. -/
def joinParts (partExit : Int → PartExit) : List Dispatch → MainExit
  | [] => MainExit.done
  | d :: ds =>
    if partExit d.num = PartExit.returned then joinParts partExit ds
    else MainExit.partFailed (partExit d.num)

/-- The function `main` of `main.go`.  The error returned by the probe is stored in
`err` and overwritten by `os.OpenFile` without having been looked at. -/
def main (env : MainEnv) : MainRun :=
  match env.probe with
  | ProbeResult.panic => { fileOpened := false, dispatched := [], exit := MainExit.panic }
  | ProbeResult.ret file_size _err =>
    match env.fileNameErr with
    | some msg => { fileOpened := false, dispatched := [], exit := MainExit.handled msg }
    | none =>
      match env.openErr with
      | some msg => { fileOpened := false, dispatched := [], exit := MainExit.handled msg }
      | none =>
        if env.worker_count = 0 then
          { fileOpened := true, dispatched := [], exit := MainExit.panic }
        else
          let parts := planParts file_size env.worker_count
          match env.poolErr with
          | some msg => { fileOpened := true, dispatched := parts, exit := MainExit.handled msg }
          | none => { fileOpened := true, dispatched := parts, exit := joinParts env.partExit parts }


/-! ## `main.go`: `getSizeAndCheckRangeSupport` -/

/-- Digit loop of `strconv.ParseUint(s, 10, 64)`: a character that is not a decimal
digit is a syntax error, a value above `2^64 - 1` a range error (reported as soon as
it is reached, before the remaining characters are looked at). -/
def parseUintLoop : List Char → Nat → Except NumErr Nat
  | [], n => Except.ok n
  | c :: cs, n =>
    if 48 ≤ c.toNat ∧ c.toNat ≤ 57 then
      let n1 := n * 10 + (c.toNat - 48)
      if n1 ≥ two64 then Except.error NumErr.errRange else parseUintLoop cs n1
    else Except.error NumErr.errSyntax

/-- Go `strconv.ParseUint(s, 10, 64)`: value and error.  The empty string is a
syntax error; on a range error the value is `2^64 - 1`. -/
def ParseUint (s : List Char) : Nat × Option NumErr :=
  match s with
  | [] => (0, some NumErr.errSyntax)
  | _ =>
    match parseUintLoop s 0 with
    | Except.ok n => (n, none)
    | Except.error NumErr.errRange => (two64 - 1, some NumErr.errRange)
    | Except.error NumErr.errSyntax => (0, some NumErr.errSyntax)

/-- Go `strconv.ParseInt(s, 10, 64)`: value and error.  An optional sign `+` or
`-` is followed by the digits; out-of-range values are clamped and reported. -/
def ParseInt (s : String) : Int × Option NumErr :=
  match s.data with
  | [] => (0, some NumErr.errSyntax)
  | c :: cs =>
    let neg : Bool := c = '-'
    let digits : List Char := if c = '+' ∨ c = '-' then cs else c :: cs
    match ParseUint digits with
    | (_, some NumErr.errSyntax) => (0, some NumErr.errSyntax)
    | (un, _) =>
      if neg = false ∧ un ≥ 9223372036854775808 then (9223372036854775807, some NumErr.errRange)
      else if neg = true ∧ un > 9223372036854775808 then (-9223372036854775808, some NumErr.errRange)
      else if neg then (-(un : Int), none) else ((un : Int), none)

/-- Go `http.Header`: a map from header name to the list of its values. -/
abbrev Header := List (String × List String)

/-- Map lookup `header[key]`: the values and whether the key is present. -/
def Header.get (h : Header) (key : String) : Option (List String) := List.lookup key h

/-- The part of `getSizeAndCheckRangeSupport` after a successful `client.Do`
(lines 179-187), as a function of the response header. -/
def checkHeader (header : Header) : ProbeResult :=
  match header.get "Accept-Ranges" with
  | none => ProbeResult.ret 0 (some ProbeErr.noAcceptRanges)
  | some [] => ProbeResult.panic
  | some (first :: _) =>
    if first ≠ "bytes" then ProbeResult.ret 0 (some ProbeErr.notBytes)
    else
      match header.get "Content-Length" with
      | none => ProbeResult.panic
      | some [] => ProbeResult.panic
      | some (cl :: _) =>
        ProbeResult.ret (ParseInt cl).1 ((ParseInt cl).2.map ProbeErr.parseFailed)

/-- The function `getSizeAndCheckRangeSupport`; the outcomes of `http.NewRequest`
and of `client.Do` are inputs. -/
def getSizeAndCheckRangeSupport (newRequestErr : Option String)
    (doResult : Except String Header) : ProbeResult :=
  match newRequestErr with
  | some msg => ProbeResult.ret 0 (some (ProbeErr.transport msg))
  | none =>
    match doResult with
    | Except.error msg => ProbeResult.ret 0 (some (ProbeErr.transport msg))
    | Except.ok header => checkHeader header

/-! ## `main.go`: `writeRange` -/

/-- A byte. -/
abbrev Byte := Fin 256

/-- Contents of the destination file: the byte stored at each offset (`none` where
nothing has been written). -/
def File := Int → Option Byte

/-- Positional write of the bytes `b` at offset `off`. -/
def File.put (f : File) (off : Int) (b : List Byte) : File :=
  fun o => if off ≤ o ∧ o < off + (b.length : Int) then b[(o - off).toNat]? else f o

/-- Effect on the file of a call `WriteAt(b, off)` that reports `nw` bytes written,
after the `io.WriterAt` contract: the first `nw` bytes of `b` are stored from offset
`off` on. -/
def File.WriteAt (f : File) (b : List Byte) (off : Int) (nw : Int) : File :=
  f.put off (b.take nw.toNat)

/-- One iteration of the read loop as seen from outside: what `body.Read(buf)`
delivered (`data = buf[0:nr]`, `er`) and, when `nr > 0`, what `File.WriteAt`
answered (`nw`, `werr`). -/
structure BodyStep where
  data : List Byte
  er : Option String
  nw : Int
  werr : Option String

/-- What `getRangeBody` returns: the body (as the reads it will deliver), the
declared size (the parsed `Content-Length` of the ranged response) and the error.
A call that panics on a response without `Content-Length` never reaches the read
loop and is not represented. -/
structure RangeResponse where
  body : List BodyStep
  size : Int
  err : Option String

/-- The variables of `writeRange` that the loop changes, the file, and the record
of the `WriteAt` calls made so far (offset and data, oldest first). -/
structure LoopState where
  start : Int
  written : Int
  file : File
  calls : List (Int × List Byte)

/-- The block `if nr > 0 { ... }` of the loop (lines 111-132).  The progress-bar
update (lines 125-131) changes none of these variables and is left out. -/
def writeChunk (part_num : Int) (e : BodyStep) (st : LoopState) : Except (PartExit × LoopState) LoopState :=
  let nr : Int := (e.data.length : Int)
  if nr > 0 then
    let st1 : LoopState :=
      { st with file := st.file.WriteAt e.data st.start e.nw, calls := st.calls ++ [(st.start, e.data)] }
    if e.werr ≠ none then Except.error (PartExit.writeError part_num, st1)
    else if nr ≠ e.nw then Except.error (PartExit.shortWrite part_num, st1)
    else
      Except.ok { st1 with
        start := wrap64 (e.nw + st1.start),
        written := if e.nw > 0 then wrap64 (st1.written + e.nw) else st1.written }
  else Except.ok st

/-- The block `if er != nil { ... }` of the loop (lines 133-143): `none` when the
loop goes on, otherwise how the function ends. -/
def checkReadError (part_num size : Int) (er : Option String) (st : LoopState) : Option PartExit :=
  match er with
  | none => none
  | some msg =>
    if msg = "EOF" then
      if size = st.written then some PartExit.returned else some (PartExit.unfinished part_num)
    else some (PartExit.readError part_num msg)

/-- The loop `for { ... }` of `writeRange` over the reads the body delivers. -/
def writeLoop (part_num size : Int) : List BodyStep → LoopState → PartExit × LoopState
  | [], st => (PartExit.reading, st)
  | e :: rest, st =>
    match writeChunk part_num e st with
    | Except.error r => r
    | Except.ok st2 =>
      match checkReadError part_num size e.er st2 with
      | some x => (x, st2)
      | none => writeLoop part_num size rest st2

/-- The method `writeRange`; `getRangeBody` and the file are inputs. -/
def writeRange (getRangeBody : Int → Int → RangeResponse) (file : File)
    (part_num start end_ : Int) : PartExit × LoopState :=
  let st0 : LoopState := { start := start, written := 0, file := file, calls := [] }
  let resp := getRangeBody start end_
  match resp.err with
  | some _ => (PartExit.requestError part_num, st0)
  | none => writeLoop part_num resp.size resp.body st0

/-! ## `simpledial.go`: `updateSpeed` -/

/-- The struct `connInfo`: cumulative byte counters (`uint64`). -/
structure connInfo where
  readTotal : Nat
  writeTotal : Nat
  deriving DecidableEq, Repr

/-- The struct `stasticInfo`; `lastTime` is an instant in nanoseconds. -/
structure stasticInfo where
  sinfo : connInfo
  readTotal : Nat
  writeTotal : Nat
  lastTime : Int
  downloadSecondBytes : Int
  uploadSecondBytes : Int
  deriving DecidableEq, Repr

/-- Go `now.Sub(lastTime).Nanoseconds()`: the difference, saturated to `int64`. -/
def subNanoseconds (now lastTime : Int) : Int :=
  if now - lastTime > maxInt64 then maxInt64
  else if now - lastTime < minInt64 then minInt64
  else now - lastTime

/-- The expression `uint64(now.Sub(si.lastTime).Nanoseconds()/1000000) + 1` (line 55). -/
def milOf (now lastTime : Int) : Nat :=
  ((Int.tdiv (subNanoseconds now lastTime) 1000000 % (two64 : Int)).toNat + 1) % two64

/-- The expression `(total - previous) * 1000 / mil` in `uint64` arithmetic
(lines 56-57), for `mil ≠ 0`. -/
def speedOf (total previous mil : Nat) : Nat :=
  (((total + two64 - previous % two64) % two64) * 1000 % two64) / mil

/-- The smoothing step (lines 59-63 and 65-69): the new value of the smoothed rate
from the old one and the `uint64` instant rate. -/
def smoothStep (previous : Int) (speed : Nat) : Int :=
  if previous = 0 then intOfUint64 speed
  else div64 (wrap64 (intOfUint64 speed + previous)) 2

/-- The method `updateSpeed` at instant `now`; `none` is the run-time panic of an
integer division by zero. -/
def updateSpeed (si : stasticInfo) (now : Int) : Option stasticInfo :=
  let readTotal := si.sinfo.readTotal
  let writeTotal := si.sinfo.writeTotal
  let mil := milOf now si.lastTime
  if mil = 0 then none
  else
    let speed1 := speedOf readTotal si.readTotal mil
    let speed2 := speedOf writeTotal si.writeTotal mil
    some { si with
      downloadSecondBytes := smoothStep si.downloadSecondBytes speed1,
      uploadSecondBytes := smoothStep si.uploadSecondBytes speed2 }

/-- The smoothed rate after feeding the instant rates, oldest first, to the
smoothing step. -/
def smoothRun (initial : Int) (rates : List Nat) : Int :=
  rates.foldl smoothStep initial

/-- The initial `stasticInfo` of `main` in `simpledial.go`: only `lastTime` is set. -/
def initialInfo (t0 : Int) : stasticInfo :=
  { sinfo := { readTotal := 0, writeTotal := 0 }, readTotal := 0, writeTotal := 0,
    lastTime := t0, downloadSecondBytes := 0, uploadSecondBytes := 0 }

/-! ## Auxiliary definitions used in the statements -/

/-- An environment of `main` in which nothing outside fails: the file name is
derived, the file opens, the progress pool starts and every part task returns. -/
def quietEnv (worker_count : Int) (probe : ProbeResult) : MainEnv :=
  { worker_count := worker_count, probe := probe, fileNameErr := none, openErr := none,
    poolErr := none, partExit := fun _ => PartExit.returned }

/-- The range the dispatch loop computes for part `i` when the part size is `p`. -/
def partOf (p : Int) (i : Nat) : Dispatch :=
  { num := (i : Int), start := (i : Int) * p, stop := ((i : Int) + 1) * p - 1 }

/-- Total number of bytes the reads deliver. -/
def totalBytes (steps : List BodyStep) : Int :=
  (steps.map (fun e => (e.data.length : Int))).sum

/-- All bytes the reads deliver, in order. -/
def allBytes (steps : List BodyStep) : List Byte :=
  (steps.map (fun e => e.data)).flatten

/-- Every `WriteAt` of the run succeeds in full: it reports no error and as many
bytes as it was given (`WriteAt` is called for the non-empty chunks only). -/
def FullWrites (steps : List BodyStep) : Prop :=
  ∀ e ∈ steps, e.data ≠ [] → e.nw = (e.data.length : Int) ∧ e.werr = none

/-- The `WriteAt` calls the positional-writer contract prescribes: every non-empty
chunk, at the start offset plus the lengths of the chunks before it. -/
def expectedCalls : Int → List BodyStep → List (Int × List Byte)
  | _, [] => []
  | off, e :: rest =>
    if e.data = [] then expectedCalls off rest
    else (off, e.data) :: expectedCalls (off + (e.data.length : Int)) rest

/-- The loop state the positional-writer contract prescribes after the reads
`steps`, started from `st`: offset and counter advanced by the bytes delivered, the
bytes stored from `st.start` on, one `WriteAt` call per non-empty chunk. -/
def advance (st : LoopState) (steps : List BodyStep) : LoopState :=
  { start := st.start + totalBytes steps,
    written := st.written + totalBytes steps,
    file := st.file.put st.start (allBytes steps),
    calls := st.calls ++ expectedCalls st.start steps }

/-- How the loop ends after a read that reported `er`, given the byte count
`written` reached so far (the decision of lines 133-143; `reading` when `er` is nil). -/
def exitAfter (part_num size : Int) (er : Option String) (written : Int) : PartExit :=
  match er with
  | none => PartExit.reading
  | some msg =>
    if msg = "EOF" then
      if size = written then PartExit.returned else PartExit.unfinished part_num
    else PartExit.readError part_num msg

/-- A ranged response used in examples: three bytes in two chunks, the second one
delivered together with EOF, every write succeeding, declared size 3. -/
def twoChunkResponse : RangeResponse :=
  { body := [{ data := [10, 11], er := none, nw := 2, werr := none },
             { data := [12], er := some "EOF", nw := 1, werr := none }],
    size := 3, err := none }

/-- The state `st2` differs from `st` only inside the offsets `[lo, hi]`: the file
is the same outside, and every `WriteAt` call added lies inside. -/
def Within (lo hi : Int) (st st2 : LoopState) : Prop :=
  (∀ o : Int, o < lo ∨ hi < o → st2.file o = st.file o) ∧
  (∀ c ∈ st2.calls, c ∈ st.calls ∨ (lo ≤ c.1 ∧ c.1 + (c.2.length : Int) - 1 ≤ hi))

/-- A ranged response used in examples: five bytes delivered in one chunk together
with EOF, declared size 5, the write succeeding. -/
def fiveByteResponse : RangeResponse :=
  { body := [{ data := [1, 2, 3, 4, 5], er := some "EOF", nw := 5, werr := none }],
    size := 5, err := none }

/-- The instant rate as the specification words it: the difference of the
cumulative byte counts of this tick and of the previous tick, times 1000, divided
by the elapsed milliseconds floored at 1. -/
def claimedInstantRate (current previous elapsedMs : Nat) : Nat :=
  (current - previous) * 1000 / max elapsedMs 1

/-- The state of the tracker when the first tick fires: created at instant 0,
`total` bytes read since. -/
def firstTickInfo (total : Nat) : stasticInfo :=
  { initialInfo 0 with sinfo := { readTotal := total, writeTotal := 0 } }

/-! ## Facts about the machine integers -/

theorem wrap64_of_isInt64 (x : Int) (h1 : -9223372036854775808 ≤ x)
    (h2 : x ≤ 9223372036854775807) : wrap64 x = x := by
  unfold wrap64
  omega

theorem div64_of_pos (a b : Int) (ha : 0 ≤ a) (ha2 : a ≤ 9223372036854775807) (hb : 0 < b) :
    div64 a b = a / b := by
  unfold div64
  rw [Int.tdiv_eq_ediv ha (le_of_lt hb)]
  have h0 : 0 ≤ a / b := Int.ediv_nonneg ha (le_of_lt hb)
  have h1 : a / b ≤ a := Int.ediv_le_self b ha
  exact wrap64_of_isInt64 _ (by omega) (by omega)

/-! ## The dispatch loop -/

/-- The loop ends by its own condition: iterations allowed beyond
`worker_count - num` are never used. -/
theorem dispatchLoop_fuel (file_size count p : Int) (hc : count ≤ 9223372036854775807) :
    ∀ (k i extra : Nat) (start : Int), ((i + k : Nat) : Int) = count →
      dispatchLoop file_size count p (k + extra) (i : Int) start =
        dispatchLoop file_size count p k (i : Int) start := by
  intro k
  induction k with
  | zero =>
    intro i extra start hik
    cases extra with
    | zero => rfl
    | succ n =>
      have hnlt : ¬ ((i : Int) < count) := by omega
      simp [dispatchLoop, hnlt]
  | succ k ih =>
    intro i extra start hik
    have hlt : (i : Int) < count := by omega
    have hw3 : wrap64 ((i : Int) + 1) = ((i + 1 : Nat) : Int) := by
      rw [wrap64_of_isInt64 _ (by omega) (by omega)]; push_cast; rfl
    have hfuel : k + 1 + extra = (k + extra) + 1 := by omega
    rw [hfuel]
    simp only [dispatchLoop, hlt, if_true, hw3]
    rw [ih (i + 1) extra _ (by omega)]

theorem dispatchLoop_eq (file_size count p : Int) (hp : 0 ≤ p) (hc : count ≤ 9223372036854775807)
    (hfit : count * p ≤ 9223372036854775807) :
    ∀ (k i : Nat), ((i + k : Nat) : Int) = count →
      dispatchLoop file_size count p k (i : Int) ((i : Int) * p) = (List.range' i k).map (partOf p) := by
  intro k
  induction k with
  | zero => intro i _; simp [dispatchLoop]
  | succ k ih =>
    intro i hik
    have hlt : (i : Int) < count := by omega
    have hne : ¬ ((i : Int) = count) := by omega
    have hmul : ((i : Int) + 1) * p ≤ count * p :=
      Int.mul_le_mul_of_nonneg_right (by omega) hp
    have hnn : 0 ≤ ((i : Int) + 1) * p := Int.mul_nonneg (by omega) hp
    have hsplit : ((i : Int) + 1) * p = (i : Int) * p + p := by ring
    have hw1 : wrap64 ((i : Int) * p + p) = ((i : Int) + 1) * p := by
      rw [← hsplit]; exact wrap64_of_isInt64 _ (by omega) (by omega)
    have hw2 : wrap64 (((i : Int) + 1) * p - 1) = ((i : Int) + 1) * p - 1 :=
      wrap64_of_isInt64 _ (by omega) (by omega)
    have hw3 : wrap64 ((i : Int) + 1) = ((i + 1 : Nat) : Int) := by
      rw [wrap64_of_isInt64 _ (by omega) (by omega)]; push_cast; rfl
    have hcast : ((i : Int) + 1) * p = ((i + 1 : Nat) : Int) * p := by push_cast; rfl
    rw [List.range'_succ, List.map_cons]
    simp only [dispatchLoop, hlt, hne, if_true, if_false, hw1, hw2, hw3]
    rw [hcast, ih (i + 1) (by omega)]
    simp [partOf]

theorem planParts_eq (file_size worker_count : Int) (hs : 0 ≤ file_size)
    (hs2 : file_size ≤ 9223372036854775807) (hw : 0 < worker_count)
    (hw2 : worker_count ≤ 9223372036854775807) :
    planParts file_size worker_count =
      (List.range worker_count.toNat).map (partOf (file_size / worker_count)) := by
  unfold planParts
  rw [div64_of_pos _ _ hs hs2 hw]
  have hp : 0 ≤ file_size / worker_count := Int.ediv_nonneg hs (le_of_lt hw)
  have hfit : worker_count * (file_size / worker_count) ≤ file_size :=
    Int.mul_ediv_self_le (by omega)
  have h := dispatchLoop_eq file_size worker_count (file_size / worker_count) hp hw2
    (by omega) worker_count.toNat 0 (by omega)
  simp only [Nat.cast_zero, zero_mul] at h
  rw [h, List.range_eq_range']

theorem planParts_nonpos (file_size worker_count : Int) (hw : worker_count ≤ 0) :
    planParts file_size worker_count = [] := by
  unfold planParts
  have h0 : worker_count.toNat = 0 := by omega
  rw [h0]
  rfl

/-- The plan does not depend on the iteration bound: with any larger bound the loop
stops at the same point, by its own condition. -/
theorem planParts_fuel (file_size worker_count : Int) (hw : worker_count ≤ 9223372036854775807)
    (extra : Nat) :
    dispatchLoop file_size worker_count (div64 file_size worker_count)
        (worker_count.toNat + extra) 0 0 = planParts file_size worker_count := by
  unfold planParts
  by_cases hpos : 0 ≤ worker_count
  · exact dispatchLoop_fuel file_size worker_count _ hw worker_count.toNat 0 extra 0 (by omega)
  · have h0 : worker_count.toNat = 0 := by omega
    rw [h0]
    cases extra with
    | zero => rfl
    | succ n =>
      have hnlt : ¬ ((0 : Int) < worker_count) := by omega
      simp [dispatchLoop, hnlt]

/-- With a non-positive worker count the loop condition `num < worker.Count` is
false at once, however many iterations are allowed. -/
theorem dispatchLoop_nonpos (file_size count p : Int) (hw : count ≤ 0) (fuel : Nat) (start : Int) :
    dispatchLoop file_size count p fuel 0 start = [] := by
  cases fuel with
  | zero => rfl
  | succ n =>
    have hnlt : ¬ ((0 : Int) < count) := by omega
    simp [dispatchLoop, hnlt]

/-! ## Claims about `main`: the partition plan -/

theorem main_dispatched (env : MainEnv) (file_size : Int) (err : Option ProbeErr)
    (hprobe : env.probe = ProbeResult.ret file_size err) (hname : env.fileNameErr = none)
    (hopen : env.openErr = none) (hw : env.worker_count ≠ 0) :
    (main env).dispatched = planParts file_size env.worker_count := by
  unfold main
  rw [hprobe, hname, hopen]
  simp only [hw, if_false]
  cases env.poolErr <;> rfl

/-- C10: for positive `totalSize` and `workerCount` (both `int64`), with
`partSize = totalSize / workerCount`, `main` dispatches part `i` with exactly the
range `[i*partSize, (i+1)*partSize - 1]` for `i = 0 .. workerCount-1`, whatever
`file_size` the never-taken "last part" branch would have used; the last end is
`totalSize - 1 - totalSize mod workerCount`, the shortfall is at most
`workerCount - 1`, it is zero iff `workerCount` divides `totalSize`, and a single
worker gets `[0, totalSize-1]`. -/
theorem C10_dispatch_ranges (env : MainEnv) (totalSize : Int) (err : Option ProbeErr)
    (hprobe : env.probe = ProbeResult.ret totalSize err) (hname : env.fileNameErr = none)
    (hopen : env.openErr = none)
    (hT : 0 < totalSize) (hT2 : totalSize ≤ maxInt64)
    (hW : 0 < env.worker_count) (hW2 : env.worker_count ≤ maxInt64) :
    (main env).dispatched =
        (List.range env.worker_count.toNat).map (partOf (totalSize / env.worker_count)) ∧
      (main env).dispatched.length = env.worker_count.toNat ∧
      (main env).dispatched.getLast? =
        some { num := env.worker_count - 1,
               start := (env.worker_count - 1) * (totalSize / env.worker_count),
               stop := totalSize - 1 - totalSize % env.worker_count } ∧
      0 ≤ totalSize % env.worker_count ∧
      totalSize % env.worker_count ≤ env.worker_count - 1 ∧
      (totalSize % env.worker_count = 0 ↔ env.worker_count ∣ totalSize) ∧
      (env.worker_count = 1 →
        (main env).dispatched = [{ num := 0, start := 0, stop := totalSize - 1 }]) := by
  have hT2' : totalSize ≤ 9223372036854775807 := hT2
  have hW2' : env.worker_count ≤ 9223372036854775807 := hW2
  have hne : env.worker_count ≠ 0 := by omega
  have hd : (main env).dispatched =
      (List.range env.worker_count.toNat).map (partOf (totalSize / env.worker_count)) := by
    rw [main_dispatched env totalSize err hprobe hname hopen hne]
    exact planParts_eq totalSize env.worker_count (le_of_lt hT) hT2' hW hW2'
  have hmod0 : 0 ≤ totalSize % env.worker_count := Int.emod_nonneg _ hne
  have hmodlt : totalSize % env.worker_count < env.worker_count := Int.emod_lt_of_pos _ hW
  have hdecomp : env.worker_count * (totalSize / env.worker_count) + totalSize % env.worker_count
      = totalSize := Int.ediv_add_emod totalSize env.worker_count
  refine ⟨hd, ?_, ?_, hmod0, by omega, ?_, ?_⟩
  · rw [hd]; simp
  · rw [hd]
    obtain ⟨n, hn⟩ : ∃ n : Nat, env.worker_count.toNat = n + 1 := ⟨env.worker_count.toNat - 1, by omega⟩
    have hcast : (n : Int) = env.worker_count - 1 := by omega
    rw [hn, List.range_succ, List.map_append, List.map_singleton, List.getLast?_append]
    simp only [List.getLast?_singleton, partOf, hcast]
    have hmul : (env.worker_count - 1 + 1) * (totalSize / env.worker_count)
        = env.worker_count * (totalSize / env.worker_count) := by ring_nf
    rw [hmul]
    have : env.worker_count * (totalSize / env.worker_count) - 1
        = totalSize - 1 - totalSize % env.worker_count := by omega
    rw [this]
    rfl
  · exact Int.dvd_iff_emod_eq_zero.symm
  · intro h1
    rw [hd, h1]
    simp [partOf, List.range_succ]

/-- Witness of C10: 1,000,000 bytes and 4 workers. -/
theorem C10_dispatch_ranges_witness :
    (main (quietEnv 4 (ProbeResult.ret 1000000 none))).dispatched =
        (List.range (4 : Int).toNat).map (partOf (1000000 / 4)) ∧
      (main (quietEnv 4 (ProbeResult.ret 1000000 none))).dispatched.getLast? =
        some { num := 3, start := 750000, stop := 999999 } := by
  have h := C10_dispatch_ranges (quietEnv 4 (ProbeResult.ret 1000000 none)) 1000000 none rfl rfl rfl
    (by decide) (by decide) (by decide) (by decide)
  exact ⟨h.1, by decide⟩

/-- C1 (evaluation of the code where the claim fails): for `totalSize = 10` and
`workerCount = 3` the ranges passed to `writeRange` are `[0,2]`, `[3,5]`, `[6,8]`:
the test `num == worker.Count` for the "last part" is never true inside the loop, so
the last end is `8` and not `totalSize - 1 = 9`; offset `9` belongs to no part. -/
theorem C1_last_part_not_extended :
    (main (quietEnv 3 (ProbeResult.ret 10 none))).dispatched =
        [{ num := 0, start := 0, stop := 2 }, { num := 1, start := 3, stop := 5 },
         { num := 2, start := 6, stop := 8 }] ∧
      ¬ (∃ d ∈ (main (quietEnv 3 (ProbeResult.ret 10 none))).dispatched,
          d.start ≤ 9 ∧ 9 ≤ d.stop) := by
  decide

/-! ## Claims about `main`: probe errors and the worker count -/

/-- C2 (evaluation of the code where the claim fails): the probe answers a response
without `Accept-Ranges` with an error, yet `main` opens the destination file and
launches all five `writeRange` tasks, because the error returned by the probe is
never passed to `handleError`. -/
theorem C2_probe_error_ignored :
    getSizeAndCheckRangeSupport none (Except.ok [("Content-Length", ["10"])])
        = ProbeResult.ret 0 (some ProbeErr.noAcceptRanges) ∧
      (main (quietEnv 5 (getSizeAndCheckRangeSupport none
        (Except.ok [("Content-Length", ["10"])])))).fileOpened = true ∧
      (main (quietEnv 5 (getSizeAndCheckRangeSupport none
        (Except.ok [("Content-Length", ["10"])])))).dispatched
        = [{ num := 0, start := 0, stop := -1 }, { num := 1, start := 0, stop := -1 },
           { num := 2, start := 0, stop := -1 }, { num := 3, start := 0, stop := -1 },
           { num := 4, start := 0, stop := -1 }] := by
  decide

/-- C7 as stated fails: with worker count `-1` nothing rejects the configuration and
`main` reaches "Done!". -/
theorem C7_counterexample :
    (-1 : Int) ≤ 0 ∧ (main (quietEnv (-1) (ProbeResult.ret 10 none))).exit = MainExit.done := by
  decide

/-- C7 (amended): for every `totalSize` and every `workerCount <= 0`, `main`
dispatches no part.  With `workerCount = 0` it never reaches "Done!" (it stops at
the file-name or open error, or at the integer division by zero).  With
`workerCount < 0` there is no rejection: when the file opens and the progress pool
starts, `main` runs to "Done!". -/
theorem C7_nonpositive_worker_count (env : MainEnv) (hW : env.worker_count ≤ 0) :
    (main env).dispatched = [] ∧
      (env.worker_count = 0 → (main env).exit ≠ MainExit.done) ∧
      (env.worker_count < 0 → (∃ size err, env.probe = ProbeResult.ret size err) →
        env.fileNameErr = none → env.openErr = none → env.poolErr = none →
        (main env).exit = MainExit.done) := by
  refine ⟨?_, ?_, ?_⟩
  · unfold main
    cases env.probe with
    | panic => rfl
    | ret size err =>
      cases env.fileNameErr with
      | some msg => rfl
      | none =>
        cases env.openErr with
        | some msg => rfl
        | none =>
          by_cases h0 : env.worker_count = 0
          · simp [h0]
          · simp only [h0, if_false, planParts_nonpos size env.worker_count hW]
            cases env.poolErr <;> rfl
  · intro h0
    unfold main
    cases env.probe with
    | panic => simp
    | ret size err =>
      cases env.fileNameErr with
      | some msg => simp
      | none =>
        cases env.openErr with
        | some msg => simp
        | none => simp [h0]
  · intro hneg hprobe hname hopen hpool
    obtain ⟨size, err, hp⟩ := hprobe
    have h0 : env.worker_count ≠ 0 := by omega
    unfold main
    rw [hp, hname, hopen, hpool]
    simp only [h0, if_false, planParts_nonpos size env.worker_count hW]
    rfl

/-- Witness of C7 (amended): worker count `-2`. -/
theorem C7_nonpositive_worker_count_witness :
    (main (quietEnv (-2) (ProbeResult.ret 10 none))).dispatched = [] ∧
      (main (quietEnv (-2) (ProbeResult.ret 10 none))).exit = MainExit.done := by
  have h := C7_nonpositive_worker_count (quietEnv (-2) (ProbeResult.ret 10 none)) (by decide)
  exact ⟨h.1, h.2.2 (by decide) ⟨10, none, rfl⟩ rfl rfl rfl⟩

/-! ## The destination file -/

theorem File.put_nil (f : File) (a : Int) : f.put a [] = f := by
  funext o
  simp only [File.put, List.length_nil, Nat.cast_zero, add_zero]
  have : ¬ (a ≤ o ∧ o < a) := by omega
  simp [this]

theorem File.put_put (f : File) (a : Int) (b c : List Byte) :
    (f.put a b).put (a + (b.length : Int)) c = f.put a (b ++ c) := by
  funext o
  simp only [File.put, List.length_append, Nat.cast_add]
  by_cases h1 : a + (b.length : Int) ≤ o ∧ o < a + (b.length : Int) + (c.length : Int)
  · have h2 : a ≤ o ∧ o < a + ((b.length : Int) + (c.length : Int)) := by omega
    have h3 : ¬ ((o - a).toNat < b.length) := by omega
    have h4 : (o - (a + (b.length : Int))).toNat = (o - a).toNat - b.length := by omega
    rw [if_pos h1, if_pos h2, List.getElem?_append_right (by omega), h4]
  · rw [if_neg h1]
    by_cases h2 : a ≤ o ∧ o < a + (b.length : Int)
    · have h3 : a ≤ o ∧ o < a + ((b.length : Int) + (c.length : Int)) := by omega
      rw [if_pos h2, if_pos h3, List.getElem?_append_left (by omega)]
    · have h3 : ¬ (a ≤ o ∧ o < a + ((b.length : Int) + (c.length : Int))) := by omega
      rw [if_neg h2, if_neg h3]

theorem File.put_outside (f : File) (a : Int) (b : List Byte) (o : Int)
    (h : o < a ∨ a + (b.length : Int) ≤ o) : f.put a b o = f o := by
  have : ¬ (a ≤ o ∧ o < a + (b.length : Int)) := by omega
  simp [File.put, this]

theorem File.put_inside (f : File) (a : Int) (b : List Byte) (i : Nat) (h : i < b.length) :
    f.put a b (a + (i : Int)) = some (b.get ⟨i, h⟩) := by
  have h1 : a ≤ a + (i : Int) ∧ a + (i : Int) < a + (b.length : Int) := by omega
  have h2 : (a + (i : Int) - a).toNat = i := by omega
  simp only [File.put, if_pos h1, h2]
  rw [List.getElem?_eq_getElem h]
  rfl

/-! ## The read loop of `writeRange` -/

theorem totalBytes_nil : totalBytes [] = 0 := rfl

theorem totalBytes_cons (e : BodyStep) (rest : List BodyStep) :
    totalBytes (e :: rest) = (e.data.length : Int) + totalBytes rest := by
  simp [totalBytes]

theorem totalBytes_append (xs ys : List BodyStep) :
    totalBytes (xs ++ ys) = totalBytes xs + totalBytes ys := by
  simp [totalBytes]

theorem totalBytes_nonneg (steps : List BodyStep) : 0 ≤ totalBytes steps := by
  induction steps with
  | nil => simp [totalBytes]
  | cons e rest ih => rw [totalBytes_cons]; omega

theorem allBytes_cons (e : BodyStep) (rest : List BodyStep) :
    allBytes (e :: rest) = e.data ++ allBytes rest := by
  simp [allBytes]

theorem allBytes_length (steps : List BodyStep) :
    ((allBytes steps).length : Int) = totalBytes steps := by
  induction steps with
  | nil => simp [allBytes, totalBytes]
  | cons e rest ih => rw [allBytes_cons, totalBytes_cons, List.length_append]; push_cast; omega

/-- A chunk whose `WriteAt` succeeds in full: the block `if nr > 0` stores it at
`start` and advances `start` and `written` by its length. -/
theorem writeChunk_full (part_num : Int) (e : BodyStep) (st : LoopState)
    (hok : e.data ≠ [] → e.nw = (e.data.length : Int) ∧ e.werr = none) :
    writeChunk part_num e st = Except.ok
      (if e.data = [] then st else
        { start := wrap64 ((e.data.length : Int) + st.start),
          written := wrap64 (st.written + (e.data.length : Int)),
          file := st.file.put st.start e.data,
          calls := st.calls ++ [(st.start, e.data)] }) := by
  by_cases hd : e.data = []
  · simp [writeChunk, hd]
  · have hpos : (e.data.length : Int) > 0 := by
      have : 0 < e.data.length := List.length_pos.mpr hd
      omega
    have htake : List.take (e.data.length : Int).toNat e.data = e.data := by
      have : ((e.data.length : Int)).toNat = e.data.length := by omega
      rw [this, List.take_length]
    obtain ⟨hnw, hwerr⟩ := hok hd
    simp only [writeChunk, hpos, if_true, hwerr, hnw, ne_eq, not_true_eq_false, if_false,
      File.WriteAt, htake, hd]

/-- Reads without error whose writes succeed in full bring the loop into the state
prescribed by `advance`; the loop then goes on with the remaining reads. -/
theorem writeLoop_reads (part_num size : Int) :
    ∀ (pre tail : List BodyStep) (st : LoopState), FullWrites pre → (∀ e ∈ pre, e.er = none) →
      -9223372036854775808 ≤ st.start → st.start + totalBytes pre ≤ 9223372036854775807 →
      -9223372036854775808 ≤ st.written → st.written + totalBytes pre ≤ 9223372036854775807 →
      writeLoop part_num size (pre ++ tail) st = writeLoop part_num size tail (advance st pre) := by
  intro pre
  induction pre with
  | nil =>
    intro tail st _ _ _ _ _ _
    simp [advance, totalBytes, allBytes, expectedCalls, File.put_nil]
  | cons e rest ih =>
    intro tail st hfull hner hs1 hs2 hw1 hw2
    have he := hfull e (List.mem_cons_self _ _)
    have her : e.er = none := hner e (List.mem_cons_self _ _)
    have hfull' : FullWrites rest := fun x hx => hfull x (List.mem_cons_of_mem _ hx)
    have hner' : ∀ x ∈ rest, x.er = none := fun x hx => hner x (List.mem_cons_of_mem _ hx)
    have hrest := totalBytes_nonneg rest
    rw [totalBytes_cons] at hs2 hw2
    rw [List.cons_append]
    simp only [writeLoop, writeChunk_full part_num e st he, her, checkReadError]
    by_cases hd : e.data = []
    · have hlen : (e.data.length : Int) = 0 := by simp [hd]
      rw [if_pos hd, ih tail st hfull' hner' hs1 (by omega) hw1 (by omega)]
      congr 1
      simp [advance, totalBytes_cons, allBytes_cons, expectedCalls, hd]
    · rw [if_neg hd]
      have hwa : wrap64 ((e.data.length : Int) + st.start) = st.start + (e.data.length : Int) := by
        rw [wrap64_of_isInt64 _ (by omega) (by omega)]; omega
      have hwb : wrap64 (st.written + (e.data.length : Int)) = st.written + (e.data.length : Int) :=
        wrap64_of_isInt64 _ (by omega) (by omega)
      rw [hwa, hwb, ih tail _ hfull' hner' (by simp only; omega) (by simp only; omega)
        (by simp only; omega) (by simp only; omega)]
      congr 1
      simp only [advance, totalBytes_cons, allBytes_cons, expectedCalls, hd, if_false,
        File.put_put, List.append_assoc, List.singleton_append]
      congr 1 <;> omega

/-- The last read of a run, its write succeeding in full: the state is the one
prescribed by `advance` and the exit is decided by `exitAfter`. -/
theorem writeLoop_last (part_num size : Int) (e : BodyStep) (st : LoopState)
    (hok : e.data ≠ [] → e.nw = (e.data.length : Int) ∧ e.werr = none)
    (hs1 : -9223372036854775808 ≤ st.start)
    (hs2 : st.start + (e.data.length : Int) ≤ 9223372036854775807)
    (hw1 : -9223372036854775808 ≤ st.written)
    (hw2 : st.written + (e.data.length : Int) ≤ 9223372036854775807) :
    writeLoop part_num size [e] st =
      (exitAfter part_num size e.er (st.written + (e.data.length : Int)), advance st [e]) := by
  have hadv : (if e.data = [] then st else
        { start := wrap64 ((e.data.length : Int) + st.start),
          written := wrap64 (st.written + (e.data.length : Int)),
          file := st.file.put st.start e.data,
          calls := st.calls ++ [(st.start, e.data)] }) = advance st [e] := by
    by_cases hd : e.data = []
    · simp [advance, totalBytes, allBytes, expectedCalls, hd, File.put_nil]
    · have hwa : wrap64 ((e.data.length : Int) + st.start) = st.start + (e.data.length : Int) := by
        rw [wrap64_of_isInt64 _ (by omega) (by omega)]; omega
      have hwb : wrap64 (st.written + (e.data.length : Int)) = st.written + (e.data.length : Int) :=
        wrap64_of_isInt64 _ (by omega) (by omega)
      simp [advance, totalBytes, allBytes, expectedCalls, hd, hwa, hwb]
  have hwr : (advance st [e]).written = st.written + (e.data.length : Int) := by
    simp [advance, totalBytes]
  simp only [writeLoop, writeChunk_full part_num e st hok, hadv]
  cases her : e.er with
  | none => simp [checkReadError, exitAfter]
  | some msg =>
    by_cases hm : msg = "EOF"
    · by_cases hsz : size = st.written + (e.data.length : Int)
      · simp [checkReadError, exitAfter, hm, hwr, hsz]
      · simp [checkReadError, exitAfter, hm, hwr, hsz]
    · simp [checkReadError, exitAfter, hm]

theorem allBytes_append (xs ys : List BodyStep) :
    allBytes (xs ++ ys) = allBytes xs ++ allBytes ys := by
  simp [allBytes]

theorem expectedCalls_append (xs ys : List BodyStep) :
    ∀ a : Int, expectedCalls a (xs ++ ys) =
      expectedCalls a xs ++ expectedCalls (a + totalBytes xs) ys := by
  induction xs with
  | nil => intro a; simp [expectedCalls, totalBytes]
  | cons e rest ih =>
    intro a
    by_cases hd : e.data = []
    · have : a + totalBytes (e :: rest) = a + totalBytes rest := by
        rw [totalBytes_cons]; simp [hd]
      rw [this]
      show expectedCalls a (e :: (rest ++ ys)) = _
      simp only [expectedCalls, hd, if_true, ih a]
    · have : a + totalBytes (e :: rest) = a + (e.data.length : Int) + totalBytes rest := by
        rw [totalBytes_cons]; omega
      rw [this]
      show expectedCalls a (e :: (rest ++ ys)) = _
      simp only [expectedCalls, hd, if_false, ih, List.cons_append]

/-- When no chunk is empty, the `j`-th prescribed call carries chunk `j` at the start
offset plus the lengths of the chunks before it. -/
theorem expectedCalls_getElem? (steps : List BodyStep) :
    ∀ (a : Int), (∀ e ∈ steps, e.data ≠ []) → ∀ (j : Nat) (h : j < steps.length),
      (expectedCalls a steps)[j]? =
        some (a + totalBytes (steps.take j), (steps.get ⟨j, h⟩).data) := by
  induction steps with
  | nil => intro a _ j h; simp at h
  | cons e rest ih =>
    intro a hne j h
    have hd : e.data ≠ [] := hne e (List.mem_cons_self _ _)
    have hne' : ∀ x ∈ rest, x.data ≠ [] := fun x hx => hne x (List.mem_cons_of_mem _ hx)
    cases j with
    | zero => simp [expectedCalls, hd, totalBytes]
    | succ j =>
      have hj : j < rest.length := by simpa using h
      have := ih (a + (e.data.length : Int)) hne' j hj
      simp only [expectedCalls, hd, if_false, List.getElem?_cons_succ, this, List.take_succ_cons,
        totalBytes_cons, List.get_cons_succ]
      congr 2
      omega

theorem advance_append (st : LoopState) (xs ys : List BodyStep) :
    advance (advance st xs) ys = advance st (xs ++ ys) := by
  simp only [advance, totalBytes_append, allBytes_append, expectedCalls_append,
    List.append_assoc, ← allBytes_length xs, File.put_put]
  congr 1 <;> omega

/-- A whole run in which every write succeeds in full and no read before the last
reports an error. -/
theorem writeLoop_run (part_num size : Int) (steps : List BodyStep) (st : LoopState)
    (hfull : FullWrites steps) (hreads : ∀ e ∈ steps.dropLast, e.er = none)
    (hs1 : -9223372036854775808 ≤ st.start)
    (hs2 : st.start + totalBytes steps ≤ 9223372036854775807)
    (hw1 : -9223372036854775808 ≤ st.written)
    (hw2 : st.written + totalBytes steps ≤ 9223372036854775807) :
    writeLoop part_num size steps st =
      (exitAfter part_num size (steps.getLast?.bind BodyStep.er) (st.written + totalBytes steps),
        advance st steps) := by
  rcases List.eq_nil_or_concat steps with hnil | ⟨pre, last, hcat⟩
  · subst hnil
    simp [writeLoop, exitAfter, advance, totalBytes, allBytes, expectedCalls, File.put_nil]
  · rw [List.concat_eq_append] at hcat
    subst hcat
    rw [List.dropLast_concat] at hreads
    rw [totalBytes_append] at hs2 hw2
    have hl : totalBytes [last] = (last.data.length : Int) := by simp [totalBytes]
    rw [hl] at hs2 hw2
    have hpre := totalBytes_nonneg pre
    have hlast : (0 : Int) ≤ (last.data.length : Int) := by omega
    have hfpre : FullWrites pre := fun x hx => hfull x (List.mem_append_left _ hx)
    have hflast := hfull last (List.mem_append_right _ (List.mem_singleton_self _))
    rw [writeLoop_reads part_num size pre [last] st hfpre hreads hs1 (by omega) hw1 (by omega),
      writeLoop_last part_num size last (advance st pre) hflast
        (by simp only [advance]; omega) (by simp only [advance]; omega)
        (by simp only [advance]; omega) (by simp only [advance]; omega),
      advance_append]
    simp only [advance, totalBytes_append, hl, List.getLast?_append, List.getLast?_singleton,
      Option.bind, add_assoc]
    rfl

/-- Only the byte counter and the exit: no assumption on the start offset. -/
theorem writeLoop_reads_written (part_num size : Int) :
    ∀ (pre tail : List BodyStep) (st : LoopState), FullWrites pre → (∀ e ∈ pre, e.er = none) →
      -9223372036854775808 ≤ st.written → st.written + totalBytes pre ≤ 9223372036854775807 →
      ∃ st2 : LoopState, writeLoop part_num size (pre ++ tail) st = writeLoop part_num size tail st2 ∧
        st2.written = st.written + totalBytes pre := by
  intro pre
  induction pre with
  | nil => intro tail st _ _ _ _; exact ⟨st, by simp, by simp [totalBytes]⟩
  | cons e rest ih =>
    intro tail st hfull hner hw1 hw2
    have he := hfull e (List.mem_cons_self _ _)
    have her : e.er = none := hner e (List.mem_cons_self _ _)
    have hfull' : FullWrites rest := fun x hx => hfull x (List.mem_cons_of_mem _ hx)
    have hner' : ∀ x ∈ rest, x.er = none := fun x hx => hner x (List.mem_cons_of_mem _ hx)
    have hrest := totalBytes_nonneg rest
    rw [totalBytes_cons] at hw2
    rw [List.cons_append]
    simp only [writeLoop, writeChunk_full part_num e st he, her, checkReadError]
    by_cases hd : e.data = []
    · have hlen : (e.data.length : Int) = 0 := by simp [hd]
      rw [if_pos hd]
      obtain ⟨st2, h1, h2⟩ := ih tail st hfull' hner' hw1 (by omega)
      exact ⟨st2, h1, by rw [h2, totalBytes_cons]; omega⟩
    · rw [if_neg hd]
      have hwb : wrap64 (st.written + (e.data.length : Int)) = st.written + (e.data.length : Int) :=
        wrap64_of_isInt64 _ (by omega) (by omega)
      obtain ⟨st2, h1, h2⟩ := ih tail
        { start := wrap64 ((e.data.length : Int) + st.start),
          written := wrap64 (st.written + (e.data.length : Int)),
          file := st.file.put st.start e.data,
          calls := st.calls ++ [(st.start, e.data)] } hfull' hner'
        (by simp only; omega) (by simp only; omega)
      exact ⟨st2, h1, by rw [h2, totalBytes_cons]; simp only; omega⟩

theorem writeLoop_last_written (part_num size : Int) (e : BodyStep) (st : LoopState)
    (hok : e.data ≠ [] → e.nw = (e.data.length : Int) ∧ e.werr = none)
    (hw1 : -9223372036854775808 ≤ st.written)
    (hw2 : st.written + (e.data.length : Int) ≤ 9223372036854775807) :
    (writeLoop part_num size [e] st).1 =
        exitAfter part_num size e.er (st.written + (e.data.length : Int)) ∧
      (writeLoop part_num size [e] st).2.written = st.written + (e.data.length : Int) := by
  have hwb : wrap64 (st.written + (e.data.length : Int)) = st.written + (e.data.length : Int) :=
    wrap64_of_isInt64 _ (by omega) (by omega)
  simp only [writeLoop, writeChunk_full part_num e st hok]
  by_cases hd : e.data = []
  · have hlen : (e.data.length : Int) = 0 := by simp [hd]
    simp only [if_pos hd, hlen, add_zero]
    cases her : e.er with
    | none => simp [checkReadError, exitAfter]
    | some msg =>
      by_cases hm : msg = "EOF"
      · by_cases hsz : size = st.written <;> simp [checkReadError, exitAfter, hm, hsz]
      · simp [checkReadError, exitAfter, hm]
  · simp only [if_neg hd, hwb]
    cases her : e.er with
    | none => simp [checkReadError, exitAfter]
    | some msg =>
      by_cases hm : msg = "EOF"
      · by_cases hsz : size = st.written + (e.data.length : Int) <;>
          simp [checkReadError, exitAfter, hm, hsz]
      · simp [checkReadError, exitAfter, hm]

/-! ## Claims about `writeRange` -/

/-- C3: for every start offset `s` (a file offset, `0 <= s`, with `s + total`
still an `int64`) and every finite sequence of reads whose writes all succeed in
full and of which only the last may report an error, `writeRange` issues exactly
the calls `WriteAt(c_j, s + |c_1| + ... + |c_{j-1}|)` for the non-empty chunks, in
order; when the loop ends `start = s + total`, `written = total`, the file holds
the concatenation of the chunks at `[s, s + total)` and is unchanged elsewhere. -/
theorem C3_positional_writes (getRangeBody : Int → Int → RangeResponse) (file : File)
    (part_num s end_ : Int)
    (hreq : (getRangeBody s end_).err = none)
    (hfull : FullWrites (getRangeBody s end_).body)
    (hreads : ∀ e ∈ (getRangeBody s end_).body.dropLast, e.er = none)
    (hs : 0 ≤ s) (hfit : s + totalBytes (getRangeBody s end_).body ≤ maxInt64) :
    (writeRange getRangeBody file part_num s end_).2.calls
        = expectedCalls s (getRangeBody s end_).body ∧
      ((∀ e ∈ (getRangeBody s end_).body, e.data ≠ []) →
        ∀ (j : Nat) (h : j < (getRangeBody s end_).body.length),
          (writeRange getRangeBody file part_num s end_).2.calls[j]? =
            some (s + totalBytes ((getRangeBody s end_).body.take j),
              ((getRangeBody s end_).body.get ⟨j, h⟩).data)) ∧
      (writeRange getRangeBody file part_num s end_).2.start
        = s + totalBytes (getRangeBody s end_).body ∧
      (writeRange getRangeBody file part_num s end_).2.written
        = totalBytes (getRangeBody s end_).body ∧
      (∀ (i : Nat) (h : i < (allBytes (getRangeBody s end_).body).length),
        (writeRange getRangeBody file part_num s end_).2.file (s + (i : Int))
          = some ((allBytes (getRangeBody s end_).body).get ⟨i, h⟩)) ∧
      (∀ o : Int, o < s ∨ s + totalBytes (getRangeBody s end_).body ≤ o →
        (writeRange getRangeBody file part_num s end_).2.file o = file o) := by
  have hfit' : s + totalBytes (getRangeBody s end_).body ≤ 9223372036854775807 := hfit
  have hrun : writeRange getRangeBody file part_num s end_ =
      (exitAfter part_num (getRangeBody s end_).size
          ((getRangeBody s end_).body.getLast?.bind BodyStep.er)
          (0 + totalBytes (getRangeBody s end_).body),
        advance { start := s, written := 0, file := file, calls := [] }
          (getRangeBody s end_).body) := by
    unfold writeRange
    simp only [hreq]
    exact writeLoop_run part_num _ _ _ hfull hreads (by simp only; omega) (by simp only; omega)
      (by simp only; omega) (by simp only; omega)
  rw [hrun]
  simp only [advance, List.nil_append, zero_add]
  refine ⟨trivial, ?_, trivial, trivial, ?_, ?_⟩
  · intro hne j h
    exact expectedCalls_getElem? _ s hne j h
  · intro i h
    exact File.put_inside file s _ i h
  · intro o ho
    exact File.put_outside file s _ o (by rw [allBytes_length]; exact ho)

/-- Witness of C3: three bytes in two chunks written from offset 5. -/
theorem C3_positional_writes_witness :
    (writeRange (fun _ _ => twoChunkResponse) (fun _ => none) 0 5 7).2.calls
        = [(5, [10, 11]), (7, [12])] ∧
      (writeRange (fun _ _ => twoChunkResponse) (fun _ => none) 0 5 7).2.written = 3 := by
  have h := C3_positional_writes (fun _ _ => twoChunkResponse) (fun _ => none) 0 5 7 rfl
    (by intro e he; simp [twoChunkResponse] at he; rcases he with rfl | rfl <;> simp)
    (by intro e he; simp [twoChunkResponse] at he; subst he; rfl)
    (by decide) (by decide)
  exact ⟨h.1.trans (by decide), h.2.2.2.1.trans (by decide)⟩

/-- C4: for every declared size and every sequence of reads that ends with EOF
(bytes may come together with the EOF), all writes succeeding in full and the total
being an `int64`, `writeRange` returns (the part is finished) if and only if the
total number of bytes written equals the declared size; on any mismatch it takes
the `handleError("Part n unfinished.")` path and does not return. -/
theorem C4_eof_size_check (getRangeBody : Int → Int → RangeResponse) (file : File)
    (part_num start end_ size : Int) (pre : List BodyStep) (last : BodyStep)
    (hresp : getRangeBody start end_ = { body := pre ++ [last], size := size, err := none })
    (hfull : FullWrites (pre ++ [last]))
    (hreads : ∀ e ∈ pre, e.er = none) (heof : last.er = some "EOF")
    (htotal : totalBytes (pre ++ [last]) ≤ maxInt64) :
    (writeRange getRangeBody file part_num start end_).2.written = totalBytes (pre ++ [last]) ∧
      ((writeRange getRangeBody file part_num start end_).1 = PartExit.returned ↔
        totalBytes (pre ++ [last]) = size) ∧
      (totalBytes (pre ++ [last]) ≠ size →
        (writeRange getRangeBody file part_num start end_).1 = PartExit.unfinished part_num) := by
  have htotal' : totalBytes (pre ++ [last]) ≤ 9223372036854775807 := htotal
  rw [totalBytes_append] at htotal'
  have hl : totalBytes [last] = (last.data.length : Int) := by simp [totalBytes]
  have hpre := totalBytes_nonneg pre
  have hfpre : FullWrites pre := fun x hx => hfull x (List.mem_append_left _ hx)
  have hflast := hfull last (List.mem_append_right _ (List.mem_singleton_self _))
  obtain ⟨st2, h1, h2⟩ := writeLoop_reads_written part_num size pre [last]
    { start := start, written := 0, file := file, calls := [] } hfpre hreads
    (by simp only; omega) (by simp only; omega)
  simp only [zero_add] at h2
  have h3 := writeLoop_last_written part_num size last st2 hflast
    (by omega) (by omega)
  have hrun : writeRange getRangeBody file part_num start end_ =
      writeLoop part_num size [last] st2 := by
    unfold writeRange
    simp only [hresp]
    exact h1
  rw [hrun, h3.1, h3.2, heof, h2, totalBytes_append, hl]
  refine ⟨rfl, ?_, ?_⟩
  · by_cases hsz : size = totalBytes pre + (last.data.length : Int)
    · simp [exitAfter, hsz]
    · have hsz' : ¬ (totalBytes pre + (last.data.length : Int) = size) := fun h => hsz h.symm
      simp [exitAfter, hsz, hsz']
  · intro hne
    have hsz : ¬ (size = totalBytes pre + (last.data.length : Int)) := fun h => hne h.symm
    simp [exitAfter, hsz]

/-- Witness of C4: three bytes delivered for a declared size of 3. -/
theorem C4_eof_size_check_witness :
    (writeRange (fun _ _ => twoChunkResponse) (fun _ => none) 0 5 7).1 = PartExit.returned := by
  have h := C4_eof_size_check (fun _ _ => twoChunkResponse) (fun _ => none) 0 5 7 3
    [{ data := [10, 11], er := none, nw := 2, werr := none }]
    { data := [12], er := some "EOF", nw := 1, werr := none } rfl
    (by intro e he; simp at he; rcases he with rfl | rfl <;> simp)
    (by intro e he; simp at he; subst he; rfl) rfl (by decide)
  exact h.2.1.mpr (by decide)

/-! ## Where `writeRange` writes -/

theorem Within.refl (lo hi : Int) (st : LoopState) : Within lo hi st st :=
  ⟨fun _ _ => rfl, fun _ hc => Or.inl hc⟩

theorem Within.trans {lo hi : Int} {a b c : LoopState} (h1 : Within lo hi a b)
    (h2 : Within lo hi b c) : Within lo hi a c := by
  refine ⟨fun o ho => (h2.1 o ho).trans (h1.1 o ho), fun x hx => ?_⟩
  rcases h2.2 x hx with hb | hr
  · exact h1.2 x hb
  · exact Or.inr hr

/-- The block `if nr > 0`, whatever `WriteAt` answers: when the chunk fits between
the current offset `A` and `hi`, only offsets of `[lo, hi]` are touched, and on
success the offset has advanced by the chunk length. -/
theorem writeChunk_within (part_num lo hi : Int) (e : BodyStep) (st : LoopState) (A : Int)
    (hlo : -9223372036854775808 ≤ lo) (hhi : hi ≤ 9223372036854775807)
    (hst : st.start = wrap64 A) (hA : lo ≤ A) (hfit : A + (e.data.length : Int) ≤ hi + 1) :
    (∀ x st2, writeChunk part_num e st = Except.error (x, st2) → Within lo hi st st2) ∧
    (∀ st2, writeChunk part_num e st = Except.ok st2 →
      Within lo hi st st2 ∧ st2.start = wrap64 (A + (e.data.length : Int))) := by
  by_cases hpos : (e.data.length : Int) > 0
  · have hAeq : st.start = A := by rw [hst]; exact wrap64_of_isInt64 _ (by omega) (by omega)
    have htake : ((e.data.take e.nw.toNat).length : Int) ≤ (e.data.length : Int) := by
      rw [List.length_take]
      omega
    have hw : Within lo hi st
        { st with file := st.file.WriteAt e.data st.start e.nw,
                  calls := st.calls ++ [(st.start, e.data)] } := by
      refine ⟨fun o ho => ?_, fun c hc => ?_⟩
      · simp only [File.WriteAt]
        exact File.put_outside _ _ _ _ (by omega)
      · simp only [List.mem_append, List.mem_singleton] at hc
        rcases hc with hc | hc
        · exact Or.inl hc
        · subst hc
          exact Or.inr ⟨by simp only; omega, by simp only; omega⟩
    constructor
    · intro x st2 h
      simp only [writeChunk, hpos, if_true] at h
      split_ifs at h with h1 h2
      · cases h; exact hw
      · cases h; exact hw
    · intro st2 h
      simp only [writeChunk, hpos, if_true] at h
      split_ifs at h with h1 h2 h3
      · cases h
        have hnw : e.nw = (e.data.length : Int) := by
          by_contra hne; exact h2 (fun heq => hne heq.symm)
        refine ⟨⟨hw.1, hw.2⟩, ?_⟩
        simp only [hnw, hAeq]
        congr 1
        omega
      · exfalso
        have hnw : e.nw = (e.data.length : Int) := by
          by_contra hne; exact h2 (fun heq => hne heq.symm)
        omega
  · have hlen : (e.data.length : Int) = 0 := by omega
    constructor
    · intro x st2 h
      simp [writeChunk, hpos] at h
    · intro st2 h
      simp only [writeChunk, hpos, if_false] at h
      cases h
      exact ⟨Within.refl lo hi st, by rw [hst, hlen, add_zero]⟩

/-- The whole loop, whatever the reads and writes answer: when the bytes the body
delivers fit between the current offset and `hi`, only `[lo, hi]` is touched. -/
theorem writeLoop_within (part_num size lo hi : Int)
    (hlo : -9223372036854775808 ≤ lo) (hhi : hi ≤ 9223372036854775807) :
    ∀ (steps : List BodyStep) (st : LoopState) (A : Int), st.start = wrap64 A → lo ≤ A →
      A + totalBytes steps ≤ hi + 1 →
      Within lo hi st (writeLoop part_num size steps st).2 := by
  intro steps
  induction steps with
  | nil => intro st A _ _ _; exact Within.refl lo hi st
  | cons e rest ih =>
    intro st A hst hA hfit
    rw [totalBytes_cons] at hfit
    have hrest := totalBytes_nonneg rest
    have hchunk := writeChunk_within part_num lo hi e st A hlo hhi hst hA (by omega)
    cases hwc : writeChunk part_num e st with
    | error r =>
      obtain ⟨x, st2⟩ := r
      simp only [writeLoop, hwc]
      exact hchunk.1 x st2 hwc
    | ok st2 =>
      obtain ⟨hw, hstart⟩ := hchunk.2 st2 hwc
      cases hce : checkReadError part_num size e.er st2 with
      | some x =>
        simp only [writeLoop, hwc, hce]
        exact hw
      | none =>
        simp only [writeLoop, hwc, hce]
        exact Within.trans hw (ih st2 (A + (e.data.length : Int)) hstart (by omega) (by omega))

theorem writeRange_within (getRangeBody : Int → Int → RangeResponse) (file : File)
    (part_num start end_ : Int) (hs : IsInt64 start) (he : IsInt64 end_)
    (hlen : totalBytes (getRangeBody start end_).body ≤ end_ - start + 1) :
    Within start end_ { start := start, written := 0, file := file, calls := [] }
      (writeRange getRangeBody file part_num start end_).2 := by
  cases herr : (getRangeBody start end_).err with
  | some msg =>
    simp only [writeRange, herr]
    exact Within.refl _ _ _
  | none =>
    simp only [writeRange, herr]
    exact writeLoop_within part_num _ start end_ hs.1 he.2 (getRangeBody start end_).body _ start
      (wrap64_of_isInt64 _ hs.1 hs.2).symm (le_refl _) (by omega)

/-- C5 as stated fails: for the part with range `[0, 2]` a body that delivers five
bytes (declared size 5) is written to offsets `0..4`; the part ends successfully
and the byte at offset `4`, outside its range, has changed. -/
theorem C5_counterexample :
    (writeRange (fun _ _ => fiveByteResponse) (fun _ => none) 0 0 2).1 = PartExit.returned ∧
      (writeRange (fun _ _ => fiveByteResponse) (fun _ => none) 0 0 2).2.calls
        = [(0, [1, 2, 3, 4, 5])] ∧
      (writeRange (fun _ _ => fiveByteResponse) (fun _ => none) 0 0 2).2.file 4 = some 5 ∧
      (fun _ => none : File) 4 = none ∧ ¬ ((4 : Int) ≤ 2) := by
  decide

/-- C5 (amended): for every part with `int64` range `[start, end]` and every
response body that delivers at most `end - start + 1` bytes in total, whatever the
reads and the writes answer, every `WriteAt` call of `writeRange` covers only
offsets of `[start, end]` and the file bytes outside that range are unchanged;
hence two such parts with disjoint ranges never write the same offset. -/
theorem C5_writes_stay_in_range (getRangeBody : Int → Int → RangeResponse) (file : File)
    (part_num start end_ : Int) (hs : IsInt64 start) (he : IsInt64 end_)
    (hlen : totalBytes (getRangeBody start end_).body ≤ end_ - start + 1) :
    (∀ c ∈ (writeRange getRangeBody file part_num start end_).2.calls,
        start ≤ c.1 ∧ c.1 + (c.2.length : Int) - 1 ≤ end_) ∧
      (∀ o : Int, o < start ∨ end_ < o →
        (writeRange getRangeBody file part_num start end_).2.file o = file o) ∧
      (∀ (getRangeBody2 : Int → Int → RangeResponse) (file2 : File) (part2 start2 end2 : Int),
        IsInt64 start2 → IsInt64 end2 →
        totalBytes (getRangeBody2 start2 end2).body ≤ end2 - start2 + 1 →
        end_ < start2 ∨ end2 < start →
        ∀ c ∈ (writeRange getRangeBody file part_num start end_).2.calls,
        ∀ c2 ∈ (writeRange getRangeBody2 file2 part2 start2 end2).2.calls,
        ∀ o : Int, ¬ ((c.1 ≤ o ∧ o < c.1 + (c.2.length : Int)) ∧
          (c2.1 ≤ o ∧ o < c2.1 + (c2.2.length : Int)))) := by
  have h1 := writeRange_within getRangeBody file part_num start end_ hs he hlen
  have hcalls : ∀ c ∈ (writeRange getRangeBody file part_num start end_).2.calls,
      start ≤ c.1 ∧ c.1 + (c.2.length : Int) - 1 ≤ end_ := by
    intro c hc
    rcases h1.2 c hc with hnil | hr
    · simp at hnil
    · exact hr
  refine ⟨hcalls, fun o ho => h1.1 o ho, ?_⟩
  intro grb2 file2 part2 start2 end2 hs2 he2 hlen2 hdisj c hc c2 hc2 o
  have h2 := writeRange_within grb2 file2 part2 start2 end2 hs2 he2 hlen2
  have hb := hcalls c hc
  have hb2 : start2 ≤ c2.1 ∧ c2.1 + (c2.2.length : Int) - 1 ≤ end2 := by
    rcases h2.2 c2 hc2 with hnil | hr
    · simp at hnil
    · exact hr
  omega

/-- Witness of C5 (amended): three bytes served for the range `[5, 7]` leave the
offsets 4 and 8 next to the range as they were. -/
theorem C5_writes_stay_in_range_witness :
    (writeRange (fun _ _ => twoChunkResponse) (fun _ => none) 0 5 7).2.file 4
        = (fun _ => none : File) 4 ∧
      (writeRange (fun _ _ => twoChunkResponse) (fun _ => none) 0 5 7).2.file 8
        = (fun _ => none : File) 8 :=
  ⟨(C5_writes_stay_in_range (fun _ _ => twoChunkResponse) (fun _ => none) 0 5 7
      ⟨by decide, by decide⟩ ⟨by decide, by decide⟩ (by decide)).2.1 4 (Or.inl (by decide)),
    (C5_writes_stay_in_range (fun _ _ => twoChunkResponse) (fun _ => none) 0 5 7
      ⟨by decide, by decide⟩ ⟨by decide, by decide⟩ (by decide)).2.1 8 (Or.inr (by decide))⟩

/-! ## Claims about `getSizeAndCheckRangeSupport` -/

/-- A response that supports ranges but carries no `Content-Length` makes the probe
panic (index out of range) instead of returning an error. -/
theorem checkHeader_missing_content_length :
    getSizeAndCheckRangeSupport none (Except.ok [("Accept-Ranges", ["bytes"])])
      = ProbeResult.panic := by
  decide

/-- C6 as stated fails: `Content-Length: -5` is not a non-negative integer, yet the
probe returns size `-5` with a nil error. -/
theorem C6_counterexample :
    getSizeAndCheckRangeSupport none
        (Except.ok [("Accept-Ranges", ["bytes"]), ("Content-Length", ["-5"])])
      = ProbeResult.ret (-5) none ∧ ¬ ((0 : Int) ≤ -5) := by
  decide

/-- C6 (amended): for every response header map that carries `Content-Length` (and
whose `Accept-Ranges` entry, if present, has a value), the probe returns an error
exactly when `Accept-Ranges` is absent, or its first value is not `bytes`, or the
first `Content-Length` value is rejected by `strconv.ParseInt(_, 10, 64)` (a signed
value such as `-5` is accepted); in every other case it returns the parsed
`Content-Length` as size with a nil error. -/
theorem C6_probe_header (header : Header) (cl : String) (more : List String)
    (hAR : header.get "Accept-Ranges" ≠ some [])
    (hCL : header.get "Content-Length" = some (cl :: more)) :
    ((∃ size e, getSizeAndCheckRangeSupport none (Except.ok header)
          = ProbeResult.ret size (some e)) ↔
        (header.get "Accept-Ranges" = none ∨
          (∃ v vs, header.get "Accept-Ranges" = some (v :: vs) ∧ v ≠ "bytes") ∨
          (ParseInt cl).2 ≠ none)) ∧
      (¬ (header.get "Accept-Ranges" = none ∨
          (∃ v vs, header.get "Accept-Ranges" = some (v :: vs) ∧ v ≠ "bytes") ∨
          (ParseInt cl).2 ≠ none) →
        getSizeAndCheckRangeSupport none (Except.ok header)
          = ProbeResult.ret (ParseInt cl).1 none) := by
  simp only [getSizeAndCheckRangeSupport, checkHeader, hCL]
  cases hA : header.get "Accept-Ranges" with
  | none => simp
  | some vs =>
    cases vs with
    | nil => exact absurd hA hAR
    | cons v vs =>
      by_cases hv : v = "bytes"
      · subst hv
        cases hp : (ParseInt cl).2 with
        | none => simp
        | some e => simp
      · simp [hv]

/-- Witness of C6 (amended): a well-formed response of 1,000,000 bytes. -/
theorem C6_probe_header_witness :
    getSizeAndCheckRangeSupport none
        (Except.ok [("Accept-Ranges", ["bytes"]), ("Content-Length", ["1000000"])])
      = ProbeResult.ret 1000000 none := by
  have h := C6_probe_header [("Accept-Ranges", ["bytes"]), ("Content-Length", ["1000000"])]
    "1000000" [] (by decide) (by decide)
  have hA : Header.get [("Accept-Ranges", ["bytes"]), ("Content-Length", ["1000000"])]
      "Accept-Ranges" = some ["bytes"] := by decide
  have hno : ¬ (Header.get [("Accept-Ranges", ["bytes"]), ("Content-Length", ["1000000"])]
        "Accept-Ranges" = none ∨
      (∃ v vs, Header.get [("Accept-Ranges", ["bytes"]), ("Content-Length", ["1000000"])]
        "Accept-Ranges" = some (v :: vs) ∧ v ≠ "bytes") ∨
      (ParseInt "1000000").2 ≠ none) := by
    rintro (h1 | ⟨v, vs, h1, hv⟩ | h1)
    · rw [hA] at h1; cases h1
    · rw [hA] at h1
      injection h1 with h1
      injection h1 with h1 h2
      exact hv h1.symm
    · exact h1 (by decide)
  exact (h.2 hno).trans (by decide)

/-! ## Claims about `updateSpeed` -/

theorem tdiv_two (x : Int) : Int.tdiv x 2 = if 0 ≤ x then x / 2 else -((-x) / 2) := by
  by_cases h : 0 ≤ x
  · rw [if_pos h, Int.tdiv_eq_ediv h (by decide)]
  · rw [if_neg h]
    have hx : x = -(-x) := by omega
    conv_lhs => rw [hx]
    rw [Int.neg_tdiv, Int.tdiv_eq_ediv (by omega) (by decide)]

theorem intOfUint64_of_le (r : Nat) (h : (r : Int) ≤ 9223372036854775807) :
    intOfUint64 r = (r : Int) := by
  unfold intOfUint64
  exact wrap64_of_isInt64 _ (by omega) h

/-- One smoothing step never yields more than the larger of the old smoothed rate
and the non-negative instant rate, and it yields an `int64`. -/
theorem smoothStep_le (previous : Int) (r : Nat) (hp1 : -9223372036854775808 ≤ previous)
    (hp2 : previous ≤ 9223372036854775807) (hr : (r : Int) ≤ 9223372036854775807) :
    (smoothStep previous r ≤ previous ∨ smoothStep previous r ≤ (r : Int)) ∧
      -9223372036854775808 ≤ smoothStep previous r ∧ smoothStep previous r ≤ 9223372036854775807 := by
  unfold smoothStep
  rw [intOfUint64_of_le r hr]
  by_cases h0 : previous = 0
  · simp only [h0, if_true]
    omega
  · simp only [h0, if_false, div64, tdiv_two]
    unfold wrap64
    split_ifs <;> omega

theorem smoothRun_cons (initial : Int) (r : Nat) (rs : List Nat) :
    smoothRun initial (r :: rs) = smoothRun (smoothStep initial r) rs := rfl

theorem smoothRun_le (rs : List Nat) :
    ∀ initial : Int, -9223372036854775808 ≤ initial → initial ≤ 9223372036854775807 →
      (∀ r ∈ rs, (r : Int) ≤ 9223372036854775807) →
      smoothRun initial rs ≤ initial ∨ ∃ r ∈ rs, smoothRun initial rs ≤ (r : Int) := by
  induction rs with
  | nil => intro initial _ _ _; exact Or.inl (le_refl _)
  | cons r rs ih =>
    intro initial h1 h2 hrs
    have hr := hrs r (List.mem_cons_self _ _)
    have hrs' : ∀ x ∈ rs, (x : Int) ≤ 9223372036854775807 :=
      fun x hx => hrs x (List.mem_cons_of_mem _ hx)
    obtain ⟨hstep, hb1, hb2⟩ := smoothStep_le initial r h1 h2 hr
    rw [smoothRun_cons]
    rcases ih (smoothStep initial r) hb1 hb2 hrs' with hle | ⟨x, hx, hle⟩
    · rcases hstep with hs | hs
      · exact Or.inl (le_trans hle hs)
      · exact Or.inr ⟨r, List.mem_cons_self _ _, le_trans hle hs⟩
    · exact Or.inr ⟨x, List.mem_cons_of_mem _ hx, hle⟩

theorem smoothRun_replicate_succ (initial : Int) (R : Nat) (k : Nat) :
    smoothRun initial (List.replicate (k + 1) R)
      = smoothStep (smoothRun initial (List.replicate k R)) R := by
  unfold smoothRun
  rw [List.replicate_succ', List.foldl_append]
  rfl

theorem smoothStep_fixed (R : Nat) (hR : (R : Int) ≤ 4611686018427387903) :
    smoothStep (R : Int) R = (R : Int) := by
  unfold smoothStep
  rw [intOfUint64_of_le R (by omega)]
  by_cases h0 : (R : Int) = 0
  · simp only [h0, if_true]
  · simp only [h0, if_false, div64, tdiv_two]
    unfold wrap64
    split_ifs <;> omega

theorem smoothRun_constant (R : Nat) (hR : (R : Int) ≤ 4611686018427387903) :
    ∀ k : Nat, 1 ≤ k → smoothRun 0 (List.replicate k R) = (R : Int) := by
  intro k
  induction k with
  | zero => intro h; omega
  | succ k ih =>
    intro _
    rw [smoothRun_replicate_succ]
    cases k with
    | zero =>
      simp only [List.replicate, smoothRun, List.foldl_nil, smoothStep, if_true]
      exact intOfUint64_of_le R (by omega)
    | succ k => rw [ih (by omega)]; exact smoothStep_fixed R hR

/-- C8 as stated fails: with the constant non-negative instant rate `R = 2^62` the
smoothed rate equals `R` after the first tick and is `-2^62` after the second (the
sum `R + R` overflows `int`): it does not stay at `R` and the gap grows. -/
theorem C8_counterexample :
    smoothRun 0 (List.replicate 1 4611686018427387904) = 4611686018427387904 ∧
      smoothRun 0 (List.replicate 2 4611686018427387904) = -4611686018427387904 ∧
      (0 : Int) ≤ intOfUint64 4611686018427387904 := by
  decide

/-- C8 (amended): starting from the initial smoothed rate 0, for every sequence of
non-negative `int` instant rates fed to the smoothing step, the smoothed rate after
tick `j >= 1` never exceeds the largest of `r_1..r_j`; and when every rate equals a
constant `R < 2^62` (so that `R + R` does not overflow `int`), the smoothed rate
equals `R` after every tick, hence it stays at `R` once reached and the gap
`|smoothed - R|` never increases from one tick to the next. -/
theorem C8_smoothing (rates : List Nat) (hrates : ∀ r ∈ rates, (r : Int) ≤ maxInt64) :
    (∀ j : Nat, 1 ≤ j → j ≤ rates.length →
        ∃ r ∈ rates.take j, smoothRun 0 (rates.take j) ≤ (r : Int)) ∧
      (∀ R : Nat, (R : Int) < 4611686018427387904 →
        (∀ k : Nat, 1 ≤ k → smoothRun 0 (List.replicate k R) = (R : Int)) ∧
        (∀ k : Nat, smoothRun 0 (List.replicate k R) = (R : Int) →
          smoothRun 0 (List.replicate (k + 1) R) = (R : Int)) ∧
        (∀ k : Nat, |smoothRun 0 (List.replicate (k + 1) R) - (R : Int)|
          ≤ |smoothRun 0 (List.replicate k R) - (R : Int)|)) := by
  constructor
  · intro j hj1 hj2
    have hsub : ∀ r ∈ rates.take j, (r : Int) ≤ 9223372036854775807 :=
      fun r hr => hrates r (List.mem_of_mem_take hr)
    rcases smoothRun_le (rates.take j) 0 (by decide) (by decide) hsub with hle | hex
    · have hne : rates.take j ≠ [] := by
        intro hnil
        have hlen : (rates.take j).length = 0 := by rw [hnil]; rfl
        rw [List.length_take] at hlen
        omega
      obtain ⟨r, hr⟩ := List.exists_mem_of_ne_nil _ hne
      exact ⟨r, hr, by omega⟩
    · exact hex
  · intro R hR
    have hconst := smoothRun_constant R (by omega)
    refine ⟨hconst, fun k _ => hconst (k + 1) (by omega), fun k => ?_⟩
    rw [hconst (k + 1) (by omega)]
    simp

/-- Witness of C8 (amended): the rates 100, 50, 7 are smoothed to at most one of
them, and the constant rate 100 is held after three ticks. -/
theorem C8_smoothing_witness :
    (∃ r ∈ ([100, 50, 7] : List Nat).take 3,
        smoothRun 0 (([100, 50, 7] : List Nat).take 3) ≤ (r : Int)) ∧
      smoothRun 0 (List.replicate 3 100) = 100 :=
  ⟨(C8_smoothing [100, 50, 7] (by decide)).1 3 (by decide) (by decide),
    ((C8_smoothing [100, 50, 7] (by decide)).2 100 (by decide)).1 3 (by decide)⟩

/-- The divisor of line 55 for a clock that does not run backwards: the whole
milliseconds elapsed (the duration saturating at the largest `int64`), plus one. -/
theorem milOf_eq (now lastTime : Int) (hmono : lastTime ≤ now) :
    (milOf now lastTime : Int) = min (now - lastTime) maxInt64 / 1000000 + 1 := by
  have hsub : subNanoseconds now lastTime = min (now - lastTime) maxInt64 := by
    unfold subNanoseconds maxInt64 minInt64
    split_ifs <;> omega
  have hnn : 0 ≤ min (now - lastTime) maxInt64 := by
    unfold maxInt64; omega
  have hle : min (now - lastTime) maxInt64 ≤ 9223372036854775807 := by
    unfold maxInt64; omega
  unfold milOf two64
  rw [hsub, Int.tdiv_eq_ediv hnn (by decide)]
  omega

/-- The method `updateSpeed` leaves the stored baseline untouched: `si.readTotal`,
`si.writeTotal` and `si.lastTime` are read and never assigned. -/
theorem updateSpeed_keeps_baseline (si si2 : stasticInfo) (now : Int)
    (h : updateSpeed si now = some si2) :
    si2.readTotal = si.readTotal ∧ si2.writeTotal = si.writeTotal ∧ si2.lastTime = si.lastTime := by
  unfold updateSpeed at h
  simp only at h
  split_ifs at h
  cases h
  exact ⟨rfl, rfl, rfl⟩

/-- C9 as stated fails: at a first tick 3000 ms after creation with 3,000,000 bytes
read, the claimed rate is `3000000 * 1000 / 3000 = 1000000`, while `updateSpeed`
divides by `3001` and stores `999666`. -/
theorem C9_counterexample :
    (updateSpeed (firstTickInfo 3000000) 3000000000).map (fun s => s.downloadSecondBytes)
        = some 999666 ∧
      claimedInstantRate 3000000 0 3000 = 1000000 := by
  decide

/-- C9 (amended): at every tick, on a clock that does not run backwards,
`updateSpeed` computes the instant rate as (cumulative bytes at this tick minus the
stored count `si.readTotal`) * 1000 / `mil` in `uint64` arithmetic, where `mil` is
the number of whole milliseconds since the stored `si.lastTime` plus one (not the
elapsed time floored at 1); `mil >= 1`, so the division is never by zero and the
call does not panic. -/
theorem C9_instant_rate (si : stasticInfo) (now : Int) (hmono : si.lastTime ≤ now) :
    1 ≤ milOf now si.lastTime ∧
      (milOf now si.lastTime : Int) = min (now - si.lastTime) maxInt64 / 1000000 + 1 ∧
      updateSpeed si now = some { si with
        downloadSecondBytes := smoothStep si.downloadSecondBytes
          (speedOf si.sinfo.readTotal si.readTotal (milOf now si.lastTime)),
        uploadSecondBytes := smoothStep si.uploadSecondBytes
          (speedOf si.sinfo.writeTotal si.writeTotal (milOf now si.lastTime)) } ∧
      (si.sinfo.readTotal < two64 → si.readTotal ≤ si.sinfo.readTotal →
        (si.sinfo.readTotal - si.readTotal) * 1000 < two64 →
        speedOf si.sinfo.readTotal si.readTotal (milOf now si.lastTime)
          = (si.sinfo.readTotal - si.readTotal) * 1000 / milOf now si.lastTime) := by
  have hmil := milOf_eq now si.lastTime hmono
  have hpos : 1 ≤ milOf now si.lastTime := by
    have h0 : 0 ≤ min (now - si.lastTime) maxInt64 / 1000000 :=
      Int.ediv_nonneg (by unfold maxInt64; omega) (by decide)
    omega
  refine ⟨hpos, hmil, ?_, ?_⟩
  · have hne : milOf now si.lastTime ≠ 0 := by omega
    simp only [updateSpeed, hne, if_false]
  · intro hu hle hlt
    unfold speedOf
    unfold two64 at hu hlt ⊢
    clear hmil hpos hmono
    have h1 : si.readTotal % 18446744073709551616 = si.readTotal := by omega
    have h2 : (si.sinfo.readTotal + 18446744073709551616 - si.readTotal) % 18446744073709551616
        = si.sinfo.readTotal - si.readTotal := by omega
    rw [h1, h2, Nat.mod_eq_of_lt hlt]

/-- Witness of C9 (amended): the first tick after 3000 ms with 3,000,000 bytes. -/
theorem C9_instant_rate_witness :
    1 ≤ milOf 3000000000 (firstTickInfo 3000000).lastTime ∧
      (milOf 3000000000 (firstTickInfo 3000000).lastTime : Int)
        = min (3000000000 - (firstTickInfo 3000000).lastTime) maxInt64 / 1000000 + 1 :=
  ⟨(C9_instant_rate (firstTickInfo 3000000) 3000000000 (by decide)).1,
    (C9_instant_rate (firstTickInfo 3000000) 3000000000 (by decide)).2.1⟩

end Downloader
